import Mathlib

/-!
Verification of the minitunnel relay: a shallow embedding of the tunnel
protocol codec, the relay router, the response rewriter, the agent
receive loop and the handshake registry discipline, with theorems
settling the specified properties against the embedded code.

Go strings are byte strings; we model a Go string as a `List Char`
where each character stands for one byte, so that `List.length`
agrees with Go's `len` and substring tests agree with the
byte-oriented functions of package `strings` on the data the system
handles.
-/

namespace Minitunnel

/-- A Go string, modelled byte-by-byte. -/
abbrev GoStr := List Char

/-- `strings.TrimPrefix(s, "/")`: drop one leading slash when present
(server `main.go:155`). -/
def trimLeadSlash (s : GoStr) : GoStr :=
  match s with
  | [] => []
  | c :: rest => if c = '/' then rest else c :: rest

/-- `strings.SplitN(s, "/", 2)` (server `main.go:156`): the first
segment, and the remainder after the first slash when one occurs. -/
def splitN2 (s : GoStr) : GoStr × Option GoStr :=
  match s with
  | [] => ([], none)
  | c :: rest =>
    if c = '/' then ([], some rest)
    else
      let p := splitN2 rest
      (c :: p.1, p.2)

/-- The clientID sniff of `Server.handleHTTPRequest`
(server `main.go:162`): byte length above 30 and a hyphen present. -/
def looksLikeClientID (seg : GoStr) : Bool :=
  decide (30 < seg.length) && seg.contains '-'

/-- Query-string re-append (server `main.go:193`). -/
def appendQuery (p q : GoStr) : GoStr :=
  if q = [] then p else p ++ '?' :: q

/-- Outcome of the routing phase of `Server.handleHTTPRequest`:
either a resolved clientID together with the path to forward, or an
HTTP error status sent to the public caller. -/
inductive RouteResult
  | ok (clientID requestPath : GoStr)
  | err (status : Nat)
deriving DecidableEq

/-- The routing logic of `Server.handleHTTPRequest`
(server `main.go:153-195`): trim the leading slash, split off the
first segment; a UUID-looking first segment is an explicit clientID
and the remainder (defaulting to `/`) is forwarded; otherwise fall
back on the registry: 503 with no agents, 400 with several, and with
exactly one agent the unmodified original path is forwarded to it.
The original query string is re-appended in either case.  The
`registry` list holds the clientIDs of the registered sessions in the
iteration order of `s.clients`; the fallback keeps the last key seen
while counting, as the `Range` loop does. -/
def resolveRoute (urlPath rawQuery : GoStr) (registry : List GoStr) : RouteResult :=
  let path := trimLeadSlash urlPath
  let parts := splitN2 path
  if looksLikeClientID parts.1 then
    let requestPath : GoStr :=
      match parts.2 with
      | some r => if r = [] then ['/'] else '/' :: r
      | none => ['/']
    .ok parts.1 (appendQuery requestPath rawQuery)
  else
    if registry.length = 0 then .err 503
    else if 1 < registry.length then .err 400
    else .ok ((registry.getLast?).getD []) (appendQuery urlPath rawQuery)

theorem trimLeadSlash_cons (s : GoStr) : trimLeadSlash ('/' :: s) = s := by
  simp [trimLeadSlash]

theorem splitN2_no_slash (seg : GoStr) (h : '/' ∉ seg) :
    splitN2 seg = (seg, none) := by
  induction seg with
  | nil => rfl
  | cons c cs ih =>
    simp only [List.mem_cons, not_or] at h
    simp [splitN2, Ne.symm h.1, ih h.2]

theorem splitN2_append (seg rest : GoStr) (h : '/' ∉ seg) :
    splitN2 (seg ++ '/' :: rest) = (seg, some rest) := by
  induction seg with
  | nil => simp [splitN2]
  | cons c cs ih =>
    simp only [List.mem_cons, not_or] at h
    simp [splitN2, Ne.symm h.1, ih h.2]

/-- C1: a first path segment of byte length at least 31 containing a
hyphen is taken as an explicit clientID and routed to, whatever the
registry holds; the forwarded path is `/` followed by the remainder,
or `/` when the remainder is empty or absent, and the original query
string, when present, is appended after a `?`. -/
theorem explicit_clientID_routing (seg rest rawQuery : GoStr) (registry : List GoStr)
    (hlen : 30 < seg.length) (hhyp : '-' ∈ seg) (hseg : '/' ∉ seg) :
    (rest ≠ [] →
      resolveRoute ('/' :: (seg ++ '/' :: rest)) rawQuery registry =
        .ok seg (if rawQuery = [] then '/' :: rest else '/' :: rest ++ '?' :: rawQuery))
    ∧ resolveRoute ('/' :: (seg ++ '/' :: [])) rawQuery registry =
        .ok seg (if rawQuery = [] then ['/'] else '/' :: '?' :: rawQuery)
    ∧ resolveRoute ('/' :: seg) rawQuery registry =
        .ok seg (if rawQuery = [] then ['/'] else '/' :: '?' :: rawQuery) := by
  have hlook : looksLikeClientID seg = true := by
    simp [looksLikeClientID, hlen, hhyp]
  refine ⟨fun hrest => ?_, ?_, ?_⟩
  · simp [resolveRoute, trimLeadSlash_cons, splitN2_append seg rest hseg, hlook,
      hrest, appendQuery]
  · simp [resolveRoute, trimLeadSlash_cons, splitN2_append seg [] hseg, hlook,
      appendQuery]
  · simp [resolveRoute, trimLeadSlash_cons, splitN2_no_slash seg hseg, hlook,
      appendQuery]

/-- Witness for `explicit_clientID_routing` at a concrete
31-byte hyphenated segment. -/
theorem explicit_clientID_routing_witness :
    30 < ("aaaaaaaaaaaaaaaaaaaaaaaaaaaaaa-".toList).length
    ∧ '-' ∈ "aaaaaaaaaaaaaaaaaaaaaaaaaaaaaa-".toList
    ∧ '/' ∉ "aaaaaaaaaaaaaaaaaaaaaaaaaaaaaa-".toList
    ∧ "x".toList ≠ []
    ∧ resolveRoute ("/aaaaaaaaaaaaaaaaaaaaaaaaaaaaaa-/x".toList) ("q=1".toList)
        ["id0".toList] =
      .ok ("aaaaaaaaaaaaaaaaaaaaaaaaaaaaaa-".toList) ("/x?q=1".toList) := by
  refine ⟨by decide, by decide, by decide, by decide, ?_⟩
  have h := (explicit_clientID_routing ("aaaaaaaaaaaaaaaaaaaaaaaaaaaaaa-".toList)
    ("x".toList) ("q=1".toList) ["id0".toList]
    (by decide) (by decide) (by decide)).1 (by decide)
  simpa using h

/-- C2: when the first segment does not qualify as an explicit
clientID, the fallback heuristic applies: 503 with an empty registry,
400 with more than one session, and with exactly one session the
request is routed to it with the unmodified original path (plus the
query string when present). -/
theorem fallback_routing (urlPath rawQuery : GoStr) (registry : List GoStr)
    (h : looksLikeClientID (splitN2 (trimLeadSlash urlPath)).1 = false) :
    (registry = [] → resolveRoute urlPath rawQuery registry = .err 503)
    ∧ (∀ a b rs, registry = a :: b :: rs →
        resolveRoute urlPath rawQuery registry = .err 400)
    ∧ (∀ c, registry = [c] → resolveRoute urlPath rawQuery registry =
        .ok c (if rawQuery = [] then urlPath else urlPath ++ '?' :: rawQuery)) := by
  refine ⟨fun h0 => ?_, fun a b rs hab => ?_, fun c hc => ?_⟩
  · simp [resolveRoute, h, h0]
  · simp [resolveRoute, h, hab]
  · simp [resolveRoute, h, hc, appendQuery]

/-- Witness for `fallback_routing`: a bare asset path against an
empty, a two-session and a one-session registry. -/
theorem fallback_routing_witness :
    looksLikeClientID (splitN2 (trimLeadSlash ("/app.js".toList))).1 = false
    ∧ resolveRoute ("/app.js".toList) [] [] = .err 503
    ∧ resolveRoute ("/app.js".toList) [] ["a".toList, "b".toList] = .err 400
    ∧ resolveRoute ("/app.js".toList) ("v=2".toList) ["c1".toList] =
        .ok ("c1".toList) ("/app.js?v=2".toList) := by
  have h1 : looksLikeClientID (splitN2 (trimLeadSlash ("/app.js".toList))).1 = false := by
    decide
  refine ⟨h1, ?_, ?_, ?_⟩
  · exact (fallback_routing ("/app.js".toList) [] [] h1).1 rfl
  · exact (fallback_routing ("/app.js".toList) [] ["a".toList, "b".toList] h1).2.1
      ("a".toList) ("b".toList) [] rfl
  · have h := (fallback_routing ("/app.js".toList) ("v=2".toList) ["c1".toList] h1).2.2
      ("c1".toList) rfl
    simpa using h

/-! ## The message codec (internal/protocol)

The codec is `encoding/json`: `WriteMessage` marshals the envelope and
appends a newline, `ReadMessage` decodes exactly one JSON value from
the stream.  We embed the wire at the granularity of one framed JSON
value per message: a `Json` tree models the parsed value, bytes that
are not valid JSON are a `malformed` wire item.  Go's marshaling of
the concrete types involved is reproduced: strings as JSON strings,
`map[string][]string` as an object of string arrays, `[]byte` as a
standard-base64 string, `json.RawMessage` as the raw (absent when
nil) payload value, and unmarshaling treats JSON `null` and a missing
field as the zero value, as `encoding/json` does. -/

/-- A byte. -/
abbrev Byte := Fin 256

/-- A JSON value (the system only ever carries integral numbers). -/
inductive Json
  | null
  | jbool (b : Bool)
  | num (n : Int)
  | str (s : GoStr)
  | arr (xs : List Json)
  | obj (fields : List (GoStr × Json))

/-- The standard base64 alphabet, sextet to character. -/
def b64Char (n : Nat) : Char :=
  if n < 26 then Char.ofNat ('A'.toNat + n)
  else if n < 52 then Char.ofNat ('a'.toNat + (n - 26))
  else if n < 62 then Char.ofNat ('0'.toNat + (n - 52))
  else if n = 62 then '+' else '/'

/-- The standard base64 alphabet, character to sextet. -/
def b64CharVal (c : Char) : Option Nat :=
  if 'A' ≤ c ∧ c ≤ 'Z' then some (c.toNat - 'A'.toNat)
  else if 'a' ≤ c ∧ c ≤ 'z' then some (c.toNat - 'a'.toNat + 26)
  else if '0' ≤ c ∧ c ≤ '9' then some (c.toNat - '0'.toNat + 52)
  else if c = '+' then some 62
  else if c = '/' then some 63
  else none

/-- Standard base64 encoding with padding, as `encoding/json` applies
to a `[]byte` value. -/
def base64Encode : List Byte → GoStr
  | [] => []
  | [a] => [b64Char (a.val / 4), b64Char ((a.val % 4) * 16), '=', '=']
  | [a, b] => [b64Char (a.val / 4), b64Char ((a.val % 4) * 16 + b.val / 16),
      b64Char ((b.val % 16) * 4), '=']
  | a :: b :: c :: rest =>
      b64Char (a.val / 4) :: b64Char ((a.val % 4) * 16 + b.val / 16) ::
      b64Char ((b.val % 16) * 4 + c.val / 64) :: b64Char (c.val % 64) ::
      base64Encode rest

/-- Strict standard base64 decoding: four-character groups, padding
only in the final group. -/
def base64Decode : GoStr → Option (List Nat)
  | [] => some []
  | c1 :: c2 :: c3 :: c4 :: rest =>
    match b64CharVal c1, b64CharVal c2 with
    | some s1, some s2 =>
      if c3 = '=' then
        if c4 = '=' ∧ rest = [] then
          if s2 % 16 = 0 then some [s1 * 4 + s2 / 16] else none
        else none
      else
        match b64CharVal c3 with
        | some s3 =>
          if c4 = '=' then
            if rest = [] then
              if s3 % 4 = 0 then
                some [s1 * 4 + s2 / 16, (s2 % 16) * 16 + s3 / 4]
              else none
            else none
          else
            match b64CharVal c4 with
            | some s4 =>
              (base64Decode rest).map
                (fun bs => (s1 * 4 + s2 / 16) :: ((s2 % 16) * 16 + s3 / 4) ::
                  ((s3 % 4) * 64 + s4) :: bs)
            | none => none
        | none => none
    | _, _ => none
  | _ => none

/-- Bounds-check a decoded byte list back into `Byte`s. -/
def natsToBytes : List Nat → Option (List Byte)
  | [] => some []
  | n :: rest =>
    if h : n < 256 then (natsToBytes rest).map (⟨n, h⟩ :: ·) else none

/-- Is `b` a UTF-8 continuation byte? -/
def isCont (b : Char) : Bool := decide (0x80 ≤ b.toNat ∧ b.toNat ≤ 0xBF)

/-- Valid second and third bytes of a three-byte UTF-8 sequence led
by `b0` (the `utf8.acceptRanges` of Go: `E0` narrows the low end,
`ED` the high end, excluding overlong forms and surrogates). -/
def cont3OK (b0 b1 b2 : Char) : Bool :=
  decide ((if b0.toNat = 0xE0 then 0xA0 else 0x80) ≤ b1.toNat
    ∧ b1.toNat ≤ (if b0.toNat = 0xED then 0x9F else 0xBF)) && isCont b2

/-- Valid trailing bytes of a four-byte UTF-8 sequence led by `b0`
(`F0` narrows the low end, `F4` the high end, capping at U+10FFFF). -/
def cont4OK (b0 b1 b2 b3 : Char) : Bool :=
  decide ((if b0.toNat = 0xF0 then 0x90 else 0x80) ≤ b1.toNat
    ∧ b1.toNat ≤ (if b0.toNat = 0xF4 then 0x8F else 0xBF)) && isCont b2 && isCont b3

/-- The UTF-8 class of a leading byte: ASCII, the lead of a two-,
three- or four-byte sequence, or a byte that can never start a
sequence (`0x80`-`0xC1`, `0xF5`-`0xFF`). -/
inductive ByteClass
  | ascii | lead2 | lead3 | lead4 | bad
deriving DecidableEq

def classify (b : Char) : ByteClass :=
  if b.toNat < 0x80 then .ascii
  else if 0xC2 ≤ b.toNat ∧ b.toNat ≤ 0xDF then .lead2
  else if 0xE0 ≤ b.toNat ∧ b.toNat ≤ 0xEF then .lead3
  else if 0xF0 ≤ b.toNat ∧ b.toNat ≤ 0xF4 then .lead4
  else .bad

/-- Is the byte string valid UTF-8 (`utf8.ValidString`)?  The fuel
argument only bounds the recursion — every step consumes at least one
byte — and is instantiated with the string's length. -/
def utf8ValidAux : Nat → GoStr → Bool
  | 0, s => s.isEmpty
  | fuel + 1, s =>
    match s with
    | [] => true
    | b0 :: rest =>
      match classify b0, rest with
      | .ascii, rest1 => utf8ValidAux fuel rest1
      | .lead2, b1 :: rest2 => isCont b1 && utf8ValidAux fuel rest2
      | .lead3, b1 :: b2 :: rest2 => cont3OK b0 b1 b2 && utf8ValidAux fuel rest2
      | .lead4, b1 :: b2 :: b3 :: rest2 => cont4OK b0 b1 b2 b3 && utf8ValidAux fuel rest2
      | _, _ => false

def utf8Valid (s : GoStr) : Bool := utf8ValidAux s.length s

/-- The UTF-8 bytes of U+FFFD, the Unicode replacement rune. -/
def replacementBytes : GoStr := [Char.ofNat 0xEF, Char.ofNat 0xBF, Char.ofNat 0xBD]

/-- `json.Marshal`'s treatment of a Go string value: the bytes are
"coerced to valid UTF-8, replacing invalid bytes with the Unicode
replacement rune" — each byte at which `utf8.DecodeRuneInString`
fails (returning size 1) becomes U+FFFD, valid runes are copied
through.  The fuel argument only bounds the recursion (every step
consumes at least one byte of the string and one unit of fuel), so
instantiating it with the string's length computes the coercion. -/
def utf8CoerceAux : Nat → GoStr → GoStr
  | 0, _ => []
  | fuel + 1, s =>
    match s with
    | [] => []
    | b0 :: rest =>
      match classify b0, rest with
      | .ascii, rest1 => b0 :: utf8CoerceAux fuel rest1
      | .lead2, b1 :: rest2 =>
        if isCont b1 then b0 :: b1 :: utf8CoerceAux fuel rest2
        else replacementBytes ++ utf8CoerceAux fuel (b1 :: rest2)
      | .lead3, b1 :: b2 :: rest2 =>
        if cont3OK b0 b1 b2 then b0 :: b1 :: b2 :: utf8CoerceAux fuel rest2
        else replacementBytes ++ utf8CoerceAux fuel (b1 :: b2 :: rest2)
      | .lead4, b1 :: b2 :: b3 :: rest2 =>
        if cont4OK b0 b1 b2 b3 then b0 :: b1 :: b2 :: b3 :: utf8CoerceAux fuel rest2
        else replacementBytes ++ utf8CoerceAux fuel (b1 :: b2 :: b3 :: rest2)
      | _, rest1 => replacementBytes ++ utf8CoerceAux fuel rest1

def utf8Coerce (s : GoStr) : GoStr := utf8CoerceAux s.length s

/-- Go struct-field lookup in a JSON object: a later duplicate key
overwrites an earlier one. -/
def lookupField : List (GoStr × Json) → GoStr → Option Json
  | [], _ => none
  | kv :: rest, key =>
    match lookupField rest key with
    | some w => some w
    | none => if kv.1 = key then some kv.2 else none

/-- A missing field behaves like JSON `null`: the target keeps its
zero value. -/
def getField (fields : List (GoStr × Json)) (key : GoStr) : Json :=
  (lookupField fields key).getD .null

/-- Unmarshal into a Go `string`. -/
def jsonToStr : Json → Option GoStr
  | .str s => some s
  | .null => some []
  | _ => none

/-- Unmarshal into a Go `int`. -/
def jsonToInt : Json → Option Int
  | .num n => some n
  | .null => some 0
  | _ => none

/-- Unmarshal into a Go `[]byte` (base64 text). -/
def jsonToBytes : Json → Option (List Byte)
  | .str s => (base64Decode s).bind natsToBytes
  | .null => some []
  | _ => none

/-- Unmarshal a JSON array of strings into `[]string`. -/
def strListFromJsonList : List Json → Option (List GoStr)
  | [] => some []
  | j :: rest => do
    let s ← jsonToStr j
    let others ← strListFromJsonList rest
    pure (s :: others)

/-- Unmarshal into a Go `[]string`. -/
def jsonToStrList : Json → Option (List GoStr)
  | .arr xs => strListFromJsonList xs
  | .null => some []
  | _ => none

/-- `map[string][]string`, in iteration order. -/
abbrev Headers := List (GoStr × List GoStr)

/-- Unmarshal the entries of a JSON object into header entries. -/
def headersFromFields : List (GoStr × Json) → Option Headers
  | [] => some []
  | kv :: rest => do
    let vs ← jsonToStrList kv.2
    let others ← headersFromFields rest
    pure ((kv.1, vs) :: others)

/-- Unmarshal into a Go `map[string][]string`. -/
def jsonToHeaders : Json → Option Headers
  | .obj fields => headersFromFields fields
  | .null => some []
  | _ => none

/-- Marshal a `map[string][]string`; keys and values are strings and
get the marshaler's UTF-8 coercion. -/
def headersToJson (h : Headers) : Json :=
  .obj (h.map fun kv =>
    (utf8Coerce kv.1, .arr (kv.2.map fun v => .str (utf8Coerce v))))

/-- Marshal a `[]byte`. -/
def bytesToJson (bs : List Byte) : Json :=
  .str (base64Encode bs)

/-- `protocol.HTTPRequest` (internal/protocol, lines 37-42). -/
structure HTTPRequest where
  method : GoStr
  path : GoStr
  headers : Headers
  body : List Byte
deriving DecidableEq

/-- `protocol.HTTPResponse` (internal/protocol, lines 45-49). -/
structure HTTPResponse where
  statusCode : Int
  headers : Headers
  body : List Byte
deriving DecidableEq

/-- `protocol.Message` (internal/protocol, lines 25-28): the typed
envelope.  The `json.RawMessage` payload is the raw JSON value it
holds, or `none` for a nil (absent) payload. -/
structure Message where
  type : GoStr
  payload : Option Json

def MsgTypeHello : GoStr := ['h', 'e', 'l', 'l', 'o']
def MsgTypeWelcome : GoStr := ['w', 'e', 'l', 'c', 'o', 'm', 'e']
def MsgTypeRequest : GoStr := ['r', 'e', 'q', 'u', 'e', 's', 't']
def MsgTypeResponse : GoStr := ['r', 'e', 's', 'p', 'o', 'n', 's', 'e']
def MsgTypeHeartbeat : GoStr := ['h', 'e', 'a', 'r', 't', 'b', 'e', 'a', 't']

/-- The JSON field tags. -/
def keyType : GoStr := ['t', 'y', 'p', 'e']
def keyPayload : GoStr := ['p', 'a', 'y', 'l', 'o', 'a', 'd']
def keyMethod : GoStr := ['m', 'e', 't', 'h', 'o', 'd']
def keyPath : GoStr := ['p', 'a', 't', 'h']
def keyHeaders : GoStr := ['h', 'e', 'a', 'd', 'e', 'r', 's']
def keyBody : GoStr := ['b', 'o', 'd', 'y']
def keyStatusCode : GoStr := ['s', 't', 'a', 't', 'u', 's', '_', 'c', 'o', 'd', 'e']

/-- `json.Marshal` of a `Message`: a nil raw payload marshals as
`null`. -/
def marshalMessage (m : Message) : Json :=
  .obj [(keyType, .str (utf8Coerce m.type)), (keyPayload, m.payload.getD .null)]

/-- `json.Unmarshal` into a `Message`: the value must be an object
(or `null`), the `type` field must be a string when present, and the
`payload` field is captured raw, `none` when absent. -/
def unmarshalMessage (j : Json) : Option Message :=
  match j with
  | .obj fields => do
    let t ← jsonToStr (getField fields keyType)
    pure { type := t, payload := lookupField fields keyPayload }
  | .null => some { type := [], payload := none }
  | _ => none

/-- `json.Marshal` of an `HTTPRequest` (string fields coerced to
valid UTF-8 by the marshaler). -/
def marshalHTTPRequest (r : HTTPRequest) : Json :=
  .obj [(keyMethod, .str (utf8Coerce r.method)), (keyPath, .str (utf8Coerce r.path)),
        (keyHeaders, headersToJson r.headers), (keyBody, bytesToJson r.body)]

/-- `json.Unmarshal` into an `HTTPRequest`. -/
def unmarshalHTTPRequest (j : Json) : Option HTTPRequest :=
  match j with
  | .obj fields => do
    let m ← jsonToStr (getField fields keyMethod)
    let p ← jsonToStr (getField fields keyPath)
    let h ← jsonToHeaders (getField fields keyHeaders)
    let b ← jsonToBytes (getField fields keyBody)
    pure { method := m, path := p, headers := h, body := b }
  | .null => some { method := [], path := [], headers := [], body := [] }
  | _ => none

/-- `json.Marshal` of an `HTTPResponse`. -/
def marshalHTTPResponse (r : HTTPResponse) : Json :=
  .obj [(keyStatusCode, .num r.statusCode),
        (keyHeaders, headersToJson r.headers), (keyBody, bytesToJson r.body)]

/-- `json.Unmarshal` into an `HTTPResponse`. -/
def unmarshalHTTPResponse (j : Json) : Option HTTPResponse :=
  match j with
  | .obj fields => do
    let s ← jsonToInt (getField fields keyStatusCode)
    let h ← jsonToHeaders (getField fields keyHeaders)
    let b ← jsonToBytes (getField fields keyBody)
    pure { statusCode := s, headers := h, body := b }
  | .null => some { statusCode := 0, headers := [], body := [] }
  | _ => none

/-- One item on the wire, at JSON-value granularity: a well-formed
framed value, or bytes that do not form valid JSON. -/
inductive WireItem
  | val (j : Json)
  | malformed

/-- `protocol.WriteMessage` (internal/protocol, lines 52-60): marshal
the envelope and emit it as one frame. -/
def WriteMessage (m : Message) : WireItem :=
  .val (marshalMessage m)

/-- `protocol.ReadMessage` (internal/protocol, lines 63-70): decode
exactly one JSON value from the stream into a `Message`; `none` is
the decode error (bad framing, or a value that does not unmarshal
into the envelope). -/
def ReadMessage : List WireItem → Option (Message × List WireItem)
  | [] => none
  | .malformed :: _ => none
  | .val j :: rest => (unmarshalMessage j).map (·, rest)

/-- `protocol.NewRequestMessage` (internal/protocol, lines 89-98). -/
def NewRequestMessage (req : HTTPRequest) : Message :=
  { type := MsgTypeRequest, payload := some (marshalHTTPRequest req) }

/-- `protocol.NewResponseMessage` (internal/protocol, lines 101-110). -/
def NewResponseMessage (resp : HTTPResponse) : Message :=
  { type := MsgTypeResponse, payload := some (marshalHTTPResponse resp) }

/-- `protocol.NewWelcomeMessage` (internal/protocol, lines 73-86). -/
def NewWelcomeMessage (clientID tunnelURL : GoStr) : Message :=
  { type := MsgTypeWelcome,
    payload := some (.obj
      [(['c', 'l', 'i', 'e', 'n', 't', '_', 'i', 'd'], .str (utf8Coerce clientID)),
       (['t', 'u', 'n', 'n', 'e', 'l', '_', 'u', 'r', 'l'], .str (utf8Coerce tunnelURL))]) }

/-- `json.Unmarshal` of the raw payload into an `HTTPRequest`: a nil
raw message is a decode error, otherwise the held value is decoded
(agent `main.go:138`). -/
def unmarshalRequestPayload (p : Option Json) : Option HTTPRequest :=
  p.bind unmarshalHTTPRequest

/-- `json.Unmarshal` of the raw payload into an `HTTPResponse`
(server `main.go:252`). -/
def unmarshalResponsePayload (p : Option Json) : Option HTTPResponse :=
  p.bind unmarshalHTTPResponse

theorem b64CharVal_b64Char (n : Nat) (h : n < 64) :
    b64CharVal (b64Char n) = some n := by
  have key : ∀ m : Fin 64, b64CharVal (b64Char m.val) = some m.val := by decide
  exact key ⟨n, h⟩

theorem b64Char_ne_pad (n : Nat) (h : n < 64) : b64Char n ≠ '=' := by
  have key : ∀ m : Fin 64, b64Char m.val ≠ '=' := by decide
  exact key ⟨n, h⟩

theorem base64Decode_encode (bs : List Byte) :
    base64Decode (base64Encode bs) = some (bs.map Fin.val) := by
  induction bs using base64Encode.induct with
  | case1 => rfl
  | case2 a =>
    have ha := a.isLt
    have h1 : a.val / 4 < 64 := by omega
    have h2 : a.val % 4 * 16 < 64 := by omega
    simp [base64Encode, base64Decode, b64CharVal_b64Char _ h1,
      b64CharVal_b64Char _ h2, Nat.mul_mod_left]
    omega
  | case3 a b =>
    have ha := a.isLt
    have hb := b.isLt
    have h1 : a.val / 4 < 64 := by omega
    have h2 : a.val % 4 * 16 + b.val / 16 < 64 := by omega
    have h3 : b.val % 16 * 4 < 64 := by omega
    simp [base64Encode, base64Decode, b64CharVal_b64Char _ h1,
      b64CharVal_b64Char _ h2, b64CharVal_b64Char _ h3,
      b64Char_ne_pad _ h3, Nat.mul_mod_left]
    omega
  | case4 a b c rest ih =>
    have ha := a.isLt
    have hb := b.isLt
    have hc := c.isLt
    have h1 : a.val / 4 < 64 := by omega
    have h2 : a.val % 4 * 16 + b.val / 16 < 64 := by omega
    have h3 : b.val % 16 * 4 + c.val / 64 < 64 := by omega
    have h4 : c.val % 64 < 64 := by omega
    simp [base64Encode, base64Decode, b64CharVal_b64Char _ h1,
      b64CharVal_b64Char _ h2, b64CharVal_b64Char _ h3, b64CharVal_b64Char _ h4,
      b64Char_ne_pad _ h3, b64Char_ne_pad _ h4, ih]
    omega

theorem natsToBytes_map_val (bs : List Byte) :
    natsToBytes (bs.map Fin.val) = some bs := by
  induction bs with
  | nil => rfl
  | cons a rest ih => simp [natsToBytes, a.isLt, ih, Fin.eta]

theorem jsonToBytes_round (bs : List Byte) :
    jsonToBytes (bytesToJson bs) = some bs := by
  simp [jsonToBytes, bytesToJson, base64Decode_encode, natsToBytes_map_val]

theorem utf8CoerceAux_valid_id (fuelC : Nat) :
    ∀ (fuelV : Nat) (s : GoStr), s.length ≤ fuelC → s.length ≤ fuelV →
    utf8ValidAux fuelV s = true → utf8CoerceAux fuelC s = s := by
  induction fuelC with
  | zero =>
    intro fuelV s hfc hfv h
    cases s with
    | nil => rfl
    | cons b0 rest => simp at hfc
  | succ fuelC ih =>
    intro fuelV s hfc hfv h
    cases s with
    | nil => rfl
    | cons b0 rest =>
      cases fuelV with
      | zero => simp at hfv
      | succ fuelV =>
        cases hc : classify b0 with
        | ascii =>
          simp only [utf8ValidAux, hc] at h
          have hlc : rest.length ≤ fuelC := by simp at hfc; omega
          have hlv : rest.length ≤ fuelV := by simp at hfv; omega
          simp [utf8CoerceAux, hc, ih fuelV rest hlc hlv h]
        | lead2 =>
          cases rest with
          | nil => simp [utf8ValidAux, hc] at h
          | cons b1 rest2 =>
            simp only [utf8ValidAux, hc, Bool.and_eq_true] at h
            obtain ⟨hcont, hv⟩ := h
            have hlc : rest2.length ≤ fuelC := by simp at hfc; omega
            have hlv : rest2.length ≤ fuelV := by simp at hfv; omega
            simp [utf8CoerceAux, hc, hcont, ih fuelV rest2 hlc hlv hv]
        | lead3 =>
          rcases rest with _ | ⟨b1, _ | ⟨b2, rest2⟩⟩
          · simp [utf8ValidAux, hc] at h
          · simp [utf8ValidAux, hc] at h
          · simp only [utf8ValidAux, hc, Bool.and_eq_true] at h
            obtain ⟨hcont, hv⟩ := h
            have hlc : rest2.length ≤ fuelC := by simp at hfc; omega
            have hlv : rest2.length ≤ fuelV := by simp at hfv; omega
            simp [utf8CoerceAux, hc, hcont, ih fuelV rest2 hlc hlv hv]
        | lead4 =>
          rcases rest with _ | ⟨b1, _ | ⟨b2, _ | ⟨b3, rest2⟩⟩⟩
          · simp [utf8ValidAux, hc] at h
          · simp [utf8ValidAux, hc] at h
          · simp [utf8ValidAux, hc] at h
          · simp only [utf8ValidAux, hc, Bool.and_eq_true] at h
            obtain ⟨hcont, hv⟩ := h
            have hlc : rest2.length ≤ fuelC := by simp at hfc; omega
            have hlv : rest2.length ≤ fuelV := by simp at hfv; omega
            simp [utf8CoerceAux, hc, hcont, ih fuelV rest2 hlc hlv hv]
        | bad =>
          simp [utf8ValidAux, hc] at h

theorem utf8Coerce_valid_id (s : GoStr) (h : utf8Valid s = true) :
    utf8Coerce s = s :=
  utf8CoerceAux_valid_id s.length s.length s le_rfl le_rfl h

/-- All header keys and values are valid UTF-8. -/
def headersUTF8OK (h : Headers) : Bool :=
  h.all fun kv => utf8Valid kv.1 && kv.2.all utf8Valid

theorem strListFromJsonList_round (vs : List GoStr) (h : vs.all utf8Valid = true) :
    strListFromJsonList (vs.map fun v => Json.str (utf8Coerce v)) = some vs := by
  induction vs with
  | nil => rfl
  | cons v rest ih =>
    simp only [List.all_cons, Bool.and_eq_true] at h
    simp [strListFromJsonList, jsonToStr, utf8Coerce_valid_id v h.1, ih h.2]

theorem jsonToHeaders_round (h : Headers) (hok : headersUTF8OK h = true) :
    jsonToHeaders (headersToJson h) = some h := by
  simp only [headersToJson, jsonToHeaders]
  induction h with
  | nil => rfl
  | cons kv rest ih =>
    simp only [headersUTF8OK, List.all_cons, Bool.and_eq_true] at hok
    simp [headersFromFields, jsonToStrList, strListFromJsonList_round kv.2 hok.1.2,
      utf8Coerce_valid_id kv.1 hok.1.1, ih hok.2]

theorem unmarshalMessage_marshal (t : GoStr) (j : Json) (ht : utf8Valid t = true) :
    unmarshalMessage (marshalMessage { type := t, payload := some j }) =
      some { type := t, payload := some j } := by
  have hne : keyPayload ≠ keyType := by decide
  simp [marshalMessage, unmarshalMessage, getField, lookupField, hne, jsonToStr,
    utf8Coerce_valid_id t ht]

theorem unmarshalHTTPRequest_marshal (r : HTTPRequest)
    (hm : utf8Valid r.method = true) (hp : utf8Valid r.path = true)
    (hh : headersUTF8OK r.headers = true) :
    unmarshalHTTPRequest (marshalHTTPRequest r) = some r := by
  have h1 : keyPath ≠ keyMethod := by decide
  have h2 : keyHeaders ≠ keyMethod := by decide
  have h3 : keyBody ≠ keyMethod := by decide
  have h4 : keyHeaders ≠ keyPath := by decide
  have h5 : keyBody ≠ keyPath := by decide
  have h6 : keyBody ≠ keyHeaders := by decide
  simp [marshalHTTPRequest, unmarshalHTTPRequest, getField, lookupField,
    h1, h2, h3, h4, h5, h6, jsonToStr, utf8Coerce_valid_id r.method hm,
    utf8Coerce_valid_id r.path hp, jsonToHeaders_round r.headers hh,
    jsonToBytes_round]

theorem unmarshalHTTPResponse_marshal (r : HTTPResponse)
    (hh : headersUTF8OK r.headers = true) :
    unmarshalHTTPResponse (marshalHTTPResponse r) = some r := by
  have h1 : keyHeaders ≠ keyStatusCode := by decide
  have h2 : keyBody ≠ keyStatusCode := by decide
  have h3 : keyBody ≠ keyHeaders := by decide
  simp [marshalHTTPResponse, unmarshalHTTPResponse, getField, lookupField,
    h1, h2, h3, jsonToInt, jsonToHeaders_round r.headers hh, jsonToBytes_round]

/-- A request whose path carries the invalid UTF-8 byte `0xFF`. -/
def invalidUTF8Req : HTTPRequest :=
  { method := "GET".toList, path := ['/', Char.ofNat 0xFF],
    headers := [], body := [] }

/-- What that request decodes back to: the invalid byte became the
replacement rune. -/
def coercedUTF8Req : HTTPRequest :=
  { method := "GET".toList, path := '/' :: replacementBytes,
    headers := [], body := [] }

/-- C3 as stated is false at this input: a `TunneledRequest` whose
path carries the invalid UTF-8 byte `0xFF` (reachable through a
percent-encoded URL such as `/%ff`) does not survive the round trip —
`json.Marshal` coerces the invalid byte to the replacement rune
U+FFFD, so decoding yields a request whose path is `/` followed by
the three replacement-rune bytes, not the original. -/
theorem codec_round_trip_counterexample :
    unmarshalRequestPayload (NewRequestMessage invalidUTF8Req).payload =
      some coercedUTF8Req
    ∧ coercedUTF8Req ≠ invalidUTF8Req
    ∧ unmarshalRequestPayload (NewRequestMessage invalidUTF8Req).payload ≠
      some invalidUTF8Req := by
  refine ⟨by decide, by decide, by decide⟩

/-- C3 amended: for every `TunneledRequest`/`TunneledResponse` whose
string fields (method, path, header keys and values) are valid UTF-8
— which the marshaler's coercion then leaves untouched — writing it
as a protocol message and decoding that message yields the original
value: `ReadMessage` returns the written envelope unchanged
(consuming only its frame), and unmarshaling the payload returns the
original request/response. -/
theorem codec_round_trip_valid_utf8 (req : HTTPRequest) (resp : HTTPResponse)
    (rest : List WireItem)
    (hm : utf8Valid req.method = true) (hp : utf8Valid req.path = true)
    (hhq : headersUTF8OK req.headers = true)
    (hhs : headersUTF8OK resp.headers = true) :
    (ReadMessage (WriteMessage (NewRequestMessage req) :: rest) =
        some (NewRequestMessage req, rest)
      ∧ unmarshalRequestPayload (NewRequestMessage req).payload = some req)
    ∧ (ReadMessage (WriteMessage (NewResponseMessage resp) :: rest) =
        some (NewResponseMessage resp, rest)
      ∧ unmarshalResponsePayload (NewResponseMessage resp).payload = some resp) := by
  refine ⟨⟨?_, ?_⟩, ⟨?_, ?_⟩⟩
  · simp [ReadMessage, WriteMessage, NewRequestMessage,
      unmarshalMessage_marshal MsgTypeRequest _ (by decide)]
  · simp [unmarshalRequestPayload, NewRequestMessage,
      unmarshalHTTPRequest_marshal req hm hp hhq]
  · simp [ReadMessage, WriteMessage, NewResponseMessage,
      unmarshalMessage_marshal MsgTypeResponse _ (by decide)]
  · simp [unmarshalResponsePayload, NewResponseMessage,
      unmarshalHTTPResponse_marshal resp hhs]

/-- A concrete request whose header value holds a valid two-byte
UTF-8 sequence, and a concrete response, for the round-trip
witness. -/
def reqRoundWitness : HTTPRequest :=
  { method := "GET".toList, path := "/x".toList,
    headers := [("X-N".toList, [[Char.ofNat 0xC3, Char.ofNat 0xA9]])],
    body := [(1 : Byte), (255 : Byte)] }

def respRoundWitness : HTTPResponse :=
  { statusCode := 200, headers := [("Content-Type".toList, ["text/html".toList])],
    body := [(0 : Byte)] }

/-- Witness for `codec_round_trip_valid_utf8` at concrete valid-UTF-8
values. -/
theorem codec_round_trip_valid_utf8_witness :
    utf8Valid reqRoundWitness.method = true
    ∧ utf8Valid reqRoundWitness.path = true
    ∧ headersUTF8OK reqRoundWitness.headers = true
    ∧ headersUTF8OK respRoundWitness.headers = true
    ∧ unmarshalRequestPayload (NewRequestMessage reqRoundWitness).payload =
        some reqRoundWitness
    ∧ unmarshalResponsePayload (NewResponseMessage respRoundWitness).payload =
        some respRoundWitness := by
  refine ⟨by decide, by decide, by decide, by decide, ?_, ?_⟩
  · exact ((codec_round_trip_valid_utf8 reqRoundWitness respRoundWitness []
      (by decide) (by decide) (by decide) (by decide)).1).2
  · exact ((codec_round_trip_valid_utf8 reqRoundWitness respRoundWitness []
      (by decide) (by decide) (by decide) (by decide)).2).2

/-- C8 as stated is false at this input: a `request` envelope whose
payload is a bare number (not the shape of a `TunneledRequest`)
decodes successfully — `ReadMessage` keeps the payload raw and does
not check it against the declared type; the mismatch only surfaces
when the consumer unmarshals the payload. -/
theorem decode_shape_counterexample :
    ReadMessage
        [WireItem.val (.obj [(keyType, .str MsgTypeRequest), (keyPayload, .num 3)])] =
      some ({ type := MsgTypeRequest, payload := some (.num 3) }, [])
    ∧ unmarshalRequestPayload (some (.num 3)) = none := by
  exact ⟨rfl, rfl⟩

/-- C8 amended: each `ReadMessage` call consumes exactly one frame,
and fails with a decode error on malformed framing or on a frame
that does not unmarshal into the envelope; the payload's shape
against the declared type is not checked at decode time. -/
theorem decode_one_message (x : WireItem) (rest : List WireItem) :
    ReadMessage (WireItem.malformed :: rest) = none
    ∧ (∀ j, x = .val j → unmarshalMessage j = none → ReadMessage (x :: rest) = none)
    ∧ (∀ j m, x = .val j → unmarshalMessage j = some m →
        ReadMessage (x :: rest) = some (m, rest))
    ∧ (∀ m tail, ReadMessage (x :: rest) = some (m, tail) → tail = rest) := by
  refine ⟨rfl, fun j hx hj => ?_, fun j m hx hj => ?_, fun m tail h => ?_⟩
  · simp [ReadMessage, hx, hj]
  · simp [ReadMessage, hx, hj]
  · cases x with
    | malformed => simp [ReadMessage] at h
    | val j =>
      simp only [ReadMessage, Option.map_eq_some'] at h
      obtain ⟨m2, hm2, hm⟩ := h
      exact (congrArg Prod.snd hm).symm

/-- Witness for `decode_one_message`: an envelope whose `type` field
is a number fails to decode; a well-formed hello envelope decodes and
leaves the rest of the stream untouched. -/
theorem decode_one_message_witness :
    ReadMessage [WireItem.malformed, WireItem.malformed] = none
    ∧ ReadMessage [WireItem.val (.obj [(keyType, .num 5)]), WireItem.malformed] = none
    ∧ ReadMessage [WireItem.val (.obj [(keyType, .str MsgTypeHello)]), WireItem.malformed] =
        some ({ type := MsgTypeHello, payload := none }, [WireItem.malformed]) := by
  refine ⟨(decode_one_message WireItem.malformed [WireItem.malformed]).1, ?_, ?_⟩
  · exact (decode_one_message (.val (.obj [(keyType, .num 5)])) [WireItem.malformed]).2.1
      (.obj [(keyType, .num 5)]) rfl rfl
  · exact (decode_one_message (.val (.obj [(keyType, .str MsgTypeHello)]))
      [WireItem.malformed]).2.2.1 (.obj [(keyType, .str MsgTypeHello)])
      { type := MsgTypeHello, payload := none } rfl rfl

/-! ## The response rewriter (server `main.go:257-291`) -/

/-- Does `pat` occur at the very start of `s`?  (the scan step of
`strings.Contains` and `strings.Replace`). -/
def leadsWith : GoStr → GoStr → Bool
  | [], _ => true
  | _ :: _, [] => false
  | p :: ps, c :: cs => p == c && leadsWith ps cs

/-- Index of the first occurrence of `pat` in `s`. -/
def findSubstrIdx (pat s : GoStr) : Option Nat :=
  if leadsWith pat s then some 0
  else
    match s with
    | [] => none
    | _ :: rest => (findSubstrIdx pat rest).map (· + 1)

/-- `strings.Contains(s, pat)`. -/
def containsSubstr (s pat : GoStr) : Bool :=
  (findSubstrIdx pat s).isSome

/-- `strings.Replace(s, pat, rep, 1)`: replace the first occurrence
of `pat` by `rep`. -/
def replaceFirst (pat rep s : GoStr) : GoStr :=
  if leadsWith pat s then rep ++ s.drop pat.length
  else
    match s with
    | [] => []
    | c :: rest => c :: replaceFirst pat rep rest

/-- `string(b)` on one byte. -/
def byteToChar (b : Byte) : Char := Char.ofNat b.val

/-- `[]byte(s)` on one character (all characters arising here model
single bytes). -/
def charToByte (c : Char) : Byte := ⟨c.toNat % 256, Nat.mod_lt _ (by omega)⟩

/-- `string(body)` (server `main.go:266`). -/
def bytesToChars (bs : List Byte) : GoStr := bs.map byteToChar

/-- `[]byte(bodyStr)` (server `main.go:271`). -/
def charsToBytes (s : GoStr) : List Byte := s.map charToByte

def headTagL : GoStr := "<head>".toList
def headTagU : GoStr := "<HEAD>".toList
def htmlMark : GoStr := "text/html".toList
def contentTypeKey : GoStr := "Content-Type".toList
def contentLengthKey : GoStr := "Content-Length".toList

/-- The injected tag `<base href="/<clientID>/">`
(server `main.go:265`). -/
def baseTag (clientID : GoStr) : GoStr :=
  "<base href=\"/".toList ++ clientID ++ "/\">".toList

/-- Go map indexing on the decoded headers (a later duplicate JSON
key would have overwritten an earlier one). -/
def mapLookup : Headers → GoStr → Option (List GoStr)
  | [], _ => none
  | kv :: rest, key =>
    match mapLookup rest key with
    | some v => some v
    | none => if kv.1 = key then some kv.2 else none

/-- `delete(m, key)` on the decoded headers. -/
def mapDelete (hs : Headers) (key : GoStr) : Headers :=
  hs.filter (fun kv => !(kv.1 == key))

/-- Content-Type extraction (server `main.go:258-261`): first value
of the `Content-Type` key, empty when absent or empty. -/
def contentTypeOf (hs : Headers) : GoStr :=
  match mapLookup hs contentTypeKey with
  | some (v :: _) => v
  | _ => []

/-- The base-tag injection on an HTML body
(server `main.go:263-276`): rewrite after `<head>`, else after
`<HEAD>`, else leave the body alone. -/
def rewriteHTMLBody (clientID body : GoStr) : GoStr :=
  if containsSubstr body headTagL then
    replaceFirst headTagL (headTagL ++ baseTag clientID) body
  else if containsSubstr body headTagU then
    replaceFirst headTagU (headTagU ++ baseTag clientID) body
  else body

/-- The response post-processing of `Server.handleHTTPRequest`
(server `main.go:257-291`): rewrite the body when the Content-Type
carries `text/html`, then drop the `Content-Length` header and pass
every other header through. -/
def relayResponse (clientID : GoStr) (resp : HTTPResponse) : HTTPResponse :=
  let body :=
    if containsSubstr (contentTypeOf resp.headers) htmlMark then
      charsToBytes (rewriteHTMLBody clientID (bytesToChars resp.body))
    else resp.body
  { statusCode := resp.statusCode,
    headers := mapDelete resp.headers contentLengthKey,
    body := body }

set_option maxRecDepth 4000 in
theorem charToByte_byteToChar : ∀ b : Byte, charToByte (byteToChar b) = b := by
  decide

theorem charsToBytes_bytesToChars (bs : List Byte) :
    charsToBytes (bytesToChars bs) = bs := by
  simp only [charsToBytes, bytesToChars, List.map_map]
  rw [show charToByte ∘ byteToChar = id from funext charToByte_byteToChar,
    List.map_id]

theorem leadsWith_take (pat s : GoStr) (h : leadsWith pat s = true) :
    s.take pat.length = pat := by
  induction pat generalizing s with
  | nil => rfl
  | cons p ps ih =>
    cases s with
    | nil => simp [leadsWith] at h
    | cons c cs =>
      simp only [leadsWith, Bool.and_eq_true, beq_iff_eq] at h
      simp [List.take_succ_cons, ih cs h.2, h.1]

theorem findSubstrIdx_first (pat s : GoStr) (i : Nat)
    (h : findSubstrIdx pat s = some i) :
    leadsWith pat (s.drop i) = true
    ∧ ∀ j, j < i → leadsWith pat (s.drop j) = false := by
  induction s generalizing i with
  | nil =>
    simp only [findSubstrIdx] at h
    cases hl : leadsWith pat [] with
    | false => simp [hl] at h
    | true =>
      simp [hl] at h
      subst h
      exact ⟨hl, by omega⟩
  | cons c cs ih =>
    simp only [findSubstrIdx] at h
    cases hl : leadsWith pat (c :: cs) with
    | true =>
      simp [hl] at h
      subst h
      exact ⟨hl, by omega⟩
    | false =>
      simp only [hl, Bool.false_eq_true, if_false, Option.map_eq_some'] at h
      obtain ⟨i0, h0, rfl⟩ := h
      obtain ⟨hm, hfirst⟩ := ih i0 h0
      refine ⟨by simpa using hm, fun j hj => ?_⟩
      cases j with
      | zero => simpa using hl
      | succ j0 => simpa using hfirst j0 (by omega)

theorem replaceFirst_insert (pat ins s : GoStr) (i : Nat)
    (h : findSubstrIdx pat s = some i) :
    replaceFirst pat (pat ++ ins) s =
      s.take (i + pat.length) ++ ins ++ s.drop (i + pat.length) := by
  induction s generalizing i with
  | nil =>
    simp only [findSubstrIdx] at h
    cases hl : leadsWith pat [] with
    | false => simp [hl] at h
    | true =>
      simp [hl] at h
      subst h
      cases pat with
      | nil => simp [replaceFirst, leadsWith]
      | cons p ps => simp [leadsWith] at hl
  | cons c cs ih =>
    simp only [findSubstrIdx] at h
    cases hl : leadsWith pat (c :: cs) with
    | true =>
      simp [hl] at h
      subst h
      have htake := leadsWith_take pat (c :: cs) hl
      simp only [replaceFirst, hl, if_true, Nat.zero_add]
      rw [← htake]
      simp
    | false =>
      simp only [hl, Bool.false_eq_true, if_false, Option.map_eq_some'] at h
      obtain ⟨i0, h0, rfl⟩ := h
      simp only [replaceFirst, hl, Bool.false_eq_true, if_false]
      rw [ih i0 h0]
      have hshift : i0 + 1 + pat.length = (i0 + pat.length) + 1 := by omega
      rw [hshift]
      simp [List.take_succ_cons, List.drop_succ_cons]

theorem mapDelete_cons_drop (kv : GoStr × List GoStr) (rest : Headers)
    (key : GoStr) (hk : (kv.1 == key) = true) :
    mapDelete (kv :: rest) key = mapDelete rest key := by
  simp [mapDelete, hk]

theorem mapDelete_cons_keep (kv : GoStr × List GoStr) (rest : Headers)
    (key : GoStr) (hk : (kv.1 == key) = false) :
    mapDelete (kv :: rest) key = kv :: mapDelete rest key := by
  simp [mapDelete, hk]

theorem mapLookup_mapDelete_self (hs : Headers) (key : GoStr) :
    mapLookup (mapDelete hs key) key = none := by
  induction hs with
  | nil => rfl
  | cons kv rest ih =>
    cases hk : kv.1 == key with
    | true => rw [mapDelete_cons_drop kv rest key hk]; exact ih
    | false =>
      have hne : ¬ kv.1 = key := by simpa using hk
      rw [mapDelete_cons_keep kv rest key hk]
      simp [mapLookup, ih, hne]

theorem mapLookup_mapDelete_ne (hs : Headers) (key k : GoStr) (hk : k ≠ key) :
    mapLookup (mapDelete hs key) k = mapLookup hs k := by
  induction hs with
  | nil => rfl
  | cons kv rest ih =>
    cases hkey : kv.1 == key with
    | true =>
      have heq : kv.1 = key := by simpa using hkey
      rw [mapDelete_cons_drop kv rest key hkey, ih]
      cases hrest : mapLookup rest k with
      | some v => simp [mapLookup, hrest]
      | none => simp [mapLookup, hrest, heq, Ne.symm hk]
    | false =>
      rw [mapDelete_cons_keep kv rest key hkey]
      simp only [mapLookup, ih]

theorem charsToBytes_append (a b : GoStr) :
    charsToBytes (a ++ b) = charsToBytes a ++ charsToBytes b := by
  simp [charsToBytes]

theorem charsToBytes_take (s : GoStr) (n : Nat) :
    charsToBytes (s.take n) = (charsToBytes s).take n := by
  simp [charsToBytes, List.map_take]

theorem charsToBytes_drop (s : GoStr) (n : Nat) :
    charsToBytes (s.drop n) = (charsToBytes s).drop n := by
  simp [charsToBytes, List.map_drop]

/-- C4: when the decoded response's Content-Type first value carries
`text/html`, the relay rewrites the body by inserting the base tag
immediately after the first occurrence of `<head>` — or, when
`<head>` does not occur, after the first occurrence of `<HEAD>` —
rewriting exactly one occurrence (everything before and after the
insertion point is kept); when neither tag occurs, or the response is
not HTML, the body is unchanged.  `findSubstrIdx` returning `some i`
means the tag matches at `i` and at no earlier position. -/
theorem html_base_injection (clientID : GoStr) (resp : HTTPResponse) :
    (containsSubstr (contentTypeOf resp.headers) htmlMark = false →
      (relayResponse clientID resp).body = resp.body)
    ∧ (containsSubstr (contentTypeOf resp.headers) htmlMark = true →
        (findSubstrIdx headTagL (bytesToChars resp.body) = none →
          findSubstrIdx headTagU (bytesToChars resp.body) = none →
          (relayResponse clientID resp).body = resp.body)
        ∧ (∀ i, findSubstrIdx headTagL (bytesToChars resp.body) = some i →
            (relayResponse clientID resp).body =
              resp.body.take (i + 6) ++ charsToBytes (baseTag clientID) ++
                resp.body.drop (i + 6)
            ∧ leadsWith headTagL ((bytesToChars resp.body).drop i) = true
            ∧ ∀ j, j < i →
                leadsWith headTagL ((bytesToChars resp.body).drop j) = false)
        ∧ (findSubstrIdx headTagL (bytesToChars resp.body) = none →
            ∀ i, findSubstrIdx headTagU (bytesToChars resp.body) = some i →
            (relayResponse clientID resp).body =
              resp.body.take (i + 6) ++ charsToBytes (baseTag clientID) ++
                resp.body.drop (i + 6)
            ∧ leadsWith headTagU ((bytesToChars resp.body).drop i) = true
            ∧ ∀ j, j < i →
                leadsWith headTagU ((bytesToChars resp.body).drop j) = false)) := by
  constructor
  · intro hct
    simp [relayResponse, hct]
  · intro hct
    refine ⟨fun hL hU => ?_, fun i hL => ?_, fun hL i hU => ?_⟩
    · have hcontL : containsSubstr (bytesToChars resp.body) headTagL = false := by
        simp [containsSubstr, hL]
      have hcontU : containsSubstr (bytesToChars resp.body) headTagU = false := by
        simp [containsSubstr, hU]
      simp [relayResponse, rewriteHTMLBody, hct, hcontL, hcontU,
        charsToBytes_bytesToChars]
    · have hfirst := findSubstrIdx_first headTagL (bytesToChars resp.body) i hL
      have hrepl := replaceFirst_insert headTagL (baseTag clientID)
        (bytesToChars resp.body) i hL
      have hlen : headTagL.length = 6 := by decide
      refine ⟨?_, hfirst.1, hfirst.2⟩
      have hcontL : containsSubstr (bytesToChars resp.body) headTagL = true := by
        simp [containsSubstr, hL]
      have hbody : (relayResponse clientID resp).body =
          charsToBytes (replaceFirst headTagL (headTagL ++ baseTag clientID)
            (bytesToChars resp.body)) := by
        simp [relayResponse, rewriteHTMLBody, hct, hcontL]
      rw [hbody, hrepl, hlen, charsToBytes_append, charsToBytes_append,
        charsToBytes_take, charsToBytes_drop, charsToBytes_bytesToChars]
    · have hfirst := findSubstrIdx_first headTagU (bytesToChars resp.body) i hU
      have hrepl := replaceFirst_insert headTagU (baseTag clientID)
        (bytesToChars resp.body) i hU
      have hlen : headTagU.length = 6 := by decide
      refine ⟨?_, hfirst.1, hfirst.2⟩
      have hcontL : containsSubstr (bytesToChars resp.body) headTagL = false := by
        simp [containsSubstr, hL]
      have hcontU : containsSubstr (bytesToChars resp.body) headTagU = true := by
        simp [containsSubstr, hU]
      have hbody : (relayResponse clientID resp).body =
          charsToBytes (replaceFirst headTagU (headTagU ++ baseTag clientID)
            (bytesToChars resp.body)) := by
        simp [relayResponse, rewriteHTMLBody, hct, hcontL, hcontU]
      rw [hbody, hrepl, hlen, charsToBytes_append, charsToBytes_append,
        charsToBytes_take, charsToBytes_drop, charsToBytes_bytesToChars]

/-- Witness for `html_base_injection`: a concrete HTML response with
`<head>` at index 6 gets the base tag inserted right after it. -/
theorem html_base_injection_witness :
    containsSubstr
        (contentTypeOf [(contentTypeKey, ["text/html".toList])]) htmlMark = true
    ∧ findSubstrIdx headTagL
        (bytesToChars (charsToBytes "<html><head></head>".toList)) = some 6
    ∧ (relayResponse ("abc".toList)
        { statusCode := 200, headers := [(contentTypeKey, ["text/html".toList])],
          body := charsToBytes "<html><head></head>".toList }).body =
        (charsToBytes "<html><head></head>".toList).take 12 ++
          charsToBytes (baseTag ("abc".toList)) ++
          (charsToBytes "<html><head></head>".toList).drop 12 := by
  refine ⟨by decide, by decide, ?_⟩
  exact ((html_base_injection ("abc".toList)
    { statusCode := 200, headers := [(contentTypeKey, ["text/html".toList])],
      body := charsToBytes "<html><head></head>".toList }).2
    (by decide)).2.1 6 (by decide) |>.1

/-- C7: for every relayed response the `Content-Length` header key is
absent from the outgoing headers — whether or not the body was
rewritten — and every other key keeps all its values. -/
theorem content_length_stripped (clientID : GoStr) (resp : HTTPResponse) :
    mapLookup (relayResponse clientID resp).headers contentLengthKey = none
    ∧ ∀ k, k ≠ contentLengthKey →
      mapLookup (relayResponse clientID resp).headers k = mapLookup resp.headers k := by
  constructor
  · simpa [relayResponse] using
      mapLookup_mapDelete_self resp.headers contentLengthKey
  · intro k hk
    simpa [relayResponse] using
      mapLookup_mapDelete_ne resp.headers contentLengthKey k hk

/-- Witness for `content_length_stripped` on a concrete response that
carries both a `Content-Length` and another header. -/
theorem content_length_stripped_witness :
    mapLookup (relayResponse ("abc".toList)
        { statusCode := 200,
          headers := [(contentLengthKey, ["10".toList]), ("X-Foo".toList, ["bar".toList])],
          body := [] }).headers contentLengthKey = none
    ∧ ("X-Foo".toList ≠ contentLengthKey
      ∧ mapLookup (relayResponse ("abc".toList)
          { statusCode := 200,
            headers := [(contentLengthKey, ["10".toList]), ("X-Foo".toList, ["bar".toList])],
            body := [] }).headers ("X-Foo".toList) =
        mapLookup [(contentLengthKey, ["10".toList]), ("X-Foo".toList, ["bar".toList])]
          ("X-Foo".toList)) := by
  refine ⟨?_, by decide, ?_⟩
  · exact (content_length_stripped ("abc".toList)
      { statusCode := 200,
        headers := [(contentLengthKey, ["10".toList]), ("X-Foo".toList, ["bar".toList])],
        body := [] }).1
  · exact (content_length_stripped ("abc".toList)
      { statusCode := 200,
        headers := [(contentLengthKey, ["10".toList]), ("X-Foo".toList, ["bar".toList])],
        body := [] }).2 ("X-Foo".toList) (by decide)

/-! ## The agent receive loop (agent `main.go:119-171`) -/

/-- The outcome of `Agent.forwardToLocal` (agent `main.go:173-226`),
an oracle for the outbound local HTTP call: the response assembled
from the local service's reply, or the error text of whatever failed
(request building, connection, the 30s timeout, reading the body). -/
inductive ForwardOutcome
  | ok (resp : HTTPResponse)
  | err (text : GoStr)

/-- What one loop iteration does after its read: ignore the message
and continue, or send a message back on the stream. -/
inductive LoopAction
  | skip
  | send (m : Message)

/-- `fmt.Sprintf("Error: %v", err)` (agent `main.go:153`). -/
def errBody (text : GoStr) : GoStr := "Error: ".toList ++ text

/-- One iteration of `Agent.handleRequests` past the read
(agent `main.go:131-169`): a non-`request` type is skipped, a payload
that does not parse as an `HTTPRequest` is skipped, otherwise the
forward outcome — or the synthesized 502 error response — is sent
back. -/
def handleRequestsStep (msg : Message) (fw : ForwardOutcome) : LoopAction :=
  if msg.type ≠ MsgTypeRequest then .skip
  else
    match unmarshalRequestPayload msg.payload with
    | none => .skip
    | some _ =>
      let resp :=
        match fw with
        | .ok r => r
        | .err text =>
          { statusCode := 502, headers := [], body := charsToBytes (errBody text) }
      .send (NewResponseMessage resp)

/-- C5: when the forward to the local service fails for any reason,
the agent sends back a `TunneledResponse` with status 502 and a
non-empty body carrying the error text, rather than no reply. -/
theorem forward_failure_502 (msg : Message) (text : GoStr) (req : HTTPRequest)
    (ht : msg.type = MsgTypeRequest)
    (hp : unmarshalRequestPayload msg.payload = some req) :
    handleRequestsStep msg (.err text) =
      .send (NewResponseMessage
        { statusCode := 502, headers := [], body := charsToBytes (errBody text) })
    ∧ charsToBytes (errBody text) ≠ [] := by
  constructor
  · simp [handleRequestsStep, ht, hp]
  · simp [charsToBytes, errBody]

/-- Witness for `forward_failure_502`: a well-formed request message
whose forward fails with a connection-refused error. -/
theorem forward_failure_502_witness :
    (NewRequestMessage { method := "GET".toList, path := ['/'], headers := [], body := [] }).type
        = MsgTypeRequest
    ∧ unmarshalRequestPayload (NewRequestMessage
        { method := "GET".toList, path := ['/'], headers := [], body := [] }).payload =
      some { method := "GET".toList, path := ['/'], headers := [], body := [] }
    ∧ handleRequestsStep (NewRequestMessage
        { method := "GET".toList, path := ['/'], headers := [], body := [] })
        (.err ("connection refused".toList)) =
      .send (NewResponseMessage
        { statusCode := 502, headers := [],
          body := charsToBytes (errBody ("connection refused".toList)) }) := by
  have hpayload : unmarshalRequestPayload (NewRequestMessage
      { method := "GET".toList, path := ['/'], headers := [], body := [] }).payload =
      some { method := "GET".toList, path := ['/'], headers := [], body := [] } := by
    decide
  refine ⟨rfl, hpayload, ?_⟩
  exact (forward_failure_502 (NewRequestMessage
    { method := "GET".toList, path := ['/'], headers := [], body := [] })
    ("connection refused".toList)
    { method := "GET".toList, path := ['/'], headers := [], body := [] }
    rfl hpayload).1

/-- C10: after the handshake, a message whose type is not `request`,
or a `request` whose payload does not parse as a `TunneledRequest`,
is skipped — the loop continues and nothing is sent back for that
exchange. -/
theorem bad_message_skipped (msg : Message) (fw : ForwardOutcome) :
    (msg.type ≠ MsgTypeRequest → handleRequestsStep msg fw = .skip)
    ∧ (unmarshalRequestPayload msg.payload = none →
        handleRequestsStep msg fw = .skip)
    ∧ ∀ m, LoopAction.skip ≠ LoopAction.send m := by
  refine ⟨fun ht => ?_, fun hp => ?_, fun m => by simp⟩
  · simp [handleRequestsStep, ht]
  · by_cases ht : msg.type = MsgTypeRequest
    · simp [handleRequestsStep, ht, hp]
    · simp [handleRequestsStep, ht]

/-- Witness for `bad_message_skipped`: a heartbeat message is
skipped, and so is a request message whose payload is a bare
number. -/
theorem bad_message_skipped_witness :
    ({ type := MsgTypeHeartbeat, payload := some (.obj []) } : Message).type ≠ MsgTypeRequest
    ∧ handleRequestsStep { type := MsgTypeHeartbeat, payload := some (.obj []) }
        (.ok { statusCode := 200, headers := [], body := [] }) = .skip
    ∧ unmarshalRequestPayload
        ({ type := MsgTypeRequest, payload := some (.num 3) } : Message).payload = none
    ∧ handleRequestsStep { type := MsgTypeRequest, payload := some (.num 3) }
        (.ok { statusCode := 200, headers := [], body := [] }) = .skip := by
  refine ⟨by decide, ?_, rfl, ?_⟩
  · exact (bad_message_skipped { type := MsgTypeHeartbeat, payload := some (.obj []) }
      (.ok { statusCode := 200, headers := [], body := [] })).1 (by decide)
  · exact (bad_message_skipped { type := MsgTypeRequest, payload := some (.num 3) }
      (.ok { statusCode := 200, headers := [], body := [] })).2.1 rfl

/-! ## The relay-side handshake and the client registry
(server `main.go:75-139`) -/

/-- A mutation of the client registry (`s.clients`). -/
inductive RegOp
  | store (id : GoStr)
  | delete (id : GoStr)

/-- `sync.Map.Store` / `sync.Map.Delete` on the set of registered
clientIDs (iteration order list). -/
def applyRegOp (reg : List GoStr) : RegOp → List GoStr
  | .store id => if id ∈ reg then reg else reg ++ [id]
  | .delete id => reg.filter (fun x => !(x == id))

def applyRegOps (reg : List GoStr) (ops : List RegOp) : List GoStr :=
  ops.foldl applyRegOp reg

/-- The registry operations `Server.handleAgentConnection` performs
over one connection's lifetime (server `main.go:75-139`): nothing
when the stream is not accepted, the first read fails, or the first
message is not a `hello`; otherwise the `Store` at `main.go:114`
followed — whatever happens next (welcome failure, or the wait for
disconnection ending) — by the deferred `Delete` of `main.go:115`. -/
def handleAgentConnection (streamOk : Bool) (firstRead : Option Message)
    (clientID : GoStr) : List RegOp :=
  if !streamOk then []
  else
    match firstRead with
    | none => []
    | some m =>
      if m.type ≠ MsgTypeHello then []
      else [.store clientID, .delete clientID]

/-- C6: a Session is registered only after a `hello` was read: on a
failed read or a non-`hello` first message no registry operation
happens at all; on success the clientID is stored (present while the
connection lives) and the deferred delete removes it at connection
termination, leaving a fresh clientID's registry as it was. -/
theorem handshake_registry (streamOk : Bool) (firstRead : Option Message)
    (clientID : GoStr) (reg : List GoStr) :
    (firstRead = none → handleAgentConnection streamOk firstRead clientID = []
      ∧ applyRegOps reg (handleAgentConnection streamOk firstRead clientID) = reg)
    ∧ (∀ m, firstRead = some m → m.type ≠ MsgTypeHello →
        handleAgentConnection streamOk firstRead clientID = []
        ∧ applyRegOps reg (handleAgentConnection streamOk firstRead clientID) = reg)
    ∧ (∀ m, firstRead = some m → m.type = MsgTypeHello → streamOk = true →
        handleAgentConnection streamOk firstRead clientID =
          [.store clientID, .delete clientID]
        ∧ clientID ∈ applyRegOp reg (.store clientID)
        ∧ clientID ∉ applyRegOps reg (handleAgentConnection streamOk firstRead clientID)
        ∧ (clientID ∉ reg →
            applyRegOps reg (handleAgentConnection streamOk firstRead clientID) = reg)) := by
  refine ⟨fun h => ?_, fun m hm ht => ?_, fun m hm ht hs => ?_⟩
  · subst h
    cases streamOk <;> simp [handleAgentConnection, applyRegOps]
  · subst hm
    cases streamOk <;> simp [handleAgentConnection, applyRegOps, ht]
  · subst hm
    subst hs
    have hops : handleAgentConnection true (some m) clientID =
        [.store clientID, .delete clientID] := by
      simp [handleAgentConnection, ht]
    refine ⟨hops, ?_, ?_, fun hfresh => ?_⟩
    · by_cases hin : clientID ∈ reg <;> simp [applyRegOp, hin]
    · rw [hops]
      simp only [applyRegOps, List.foldl_cons, List.foldl_nil, applyRegOp]
      intro hmem
      have hpred := List.of_mem_filter hmem
      simp at hpred
    · rw [hops]
      simp only [applyRegOps, List.foldl_cons, List.foldl_nil, applyRegOp, hfresh,
        if_false]
      rw [List.filter_append]
      have h1 : reg.filter (fun x => !(x == clientID)) = reg := by
        apply List.filter_eq_self.2
        intro a ha
        have hne : a ≠ clientID := fun hc => hfresh (by rwa [hc] at ha)
        simp [hne]
      have h2 : [clientID].filter (fun x => !(x == clientID)) = [] := by simp
      rw [h1, h2, List.append_nil]

/-- Witness for `handshake_registry` at concrete messages and a
concrete registry. -/
theorem handshake_registry_witness :
    applyRegOps ["x".toList]
        (handleAgentConnection true none ("id-1".toList)) = ["x".toList]
    ∧ ({ type := MsgTypeHeartbeat, payload := none } : Message).type ≠ MsgTypeHello
    ∧ handleAgentConnection true (some { type := MsgTypeHeartbeat, payload := none })
        ("id-1".toList) = []
    ∧ ({ type := MsgTypeHello, payload := some (.obj []) } : Message).type = MsgTypeHello
    ∧ ("id-1".toList ∉ (["x".toList] : List GoStr))
    ∧ applyRegOps ["x".toList]
        (handleAgentConnection true (some { type := MsgTypeHello, payload := some (.obj []) })
          ("id-1".toList)) = ["x".toList] := by
  refine ⟨?_, by decide, ?_, rfl, by decide, ?_⟩
  · exact ((handshake_registry true none ("id-1".toList) ["x".toList]).1 rfl).2
  · exact ((handshake_registry true (some { type := MsgTypeHeartbeat, payload := none })
      ("id-1".toList) ["x".toList]).2.1
      { type := MsgTypeHeartbeat, payload := none } rfl (by decide)).1
  · exact ((handshake_registry true (some { type := MsgTypeHello, payload := some (.obj []) })
      ("id-1".toList) ["x".toList]).2.2
      { type := MsgTypeHello, payload := some (.obj []) } rfl rfl rfl).2.2.2 (by decide)

/-! ## The per-Session relay lock (server `main.go:228-243`)

Each public request handler runs the critical section of
`Server.handleHTTPRequest` against the session's `ClientInfo.mu`
(server `main.go:28-31`): `mu.Lock()`, `WriteMessage` (the request
frame), `ReadMessage` (the response frame), `mu.Unlock()`.  We model
two concurrent handlers, named by `Bool`, under an arbitrary
interleaving chosen by a scheduler; a handler's program counter is
0 before `Lock`, 1 holding the lock before the write, 2 after the
write awaiting the read, 3 after the read before `Unlock`, 4 done.
Error exits release the lock without further stream operations and
put no frame on the stream, so only the successful write and read
appear as events. -/

/-- A frame event on the session stream: handler `t` wrote its
request message, or finished reading its response message. -/
inductive Ev
  | write (t : Bool)
  | read (t : Bool)
deriving DecidableEq

/-- Program counter of handler `true`, program counter of handler
`false`, and the lock holder. -/
abbrev LockState := Fin 5 × Fin 5 × Option Bool

def relayInit : LockState := (0, 0, none)

def pcOf (st : LockState) (t : Bool) : Fin 5 := if t then st.1 else st.2.1

def setPcOf (st : LockState) (t : Bool) (v : Fin 5) : LockState :=
  if t then (v, st.2.1, st.2.2) else (st.1, v, st.2.2)

def setOwner (st : LockState) (o : Option Bool) : LockState :=
  (st.1, st.2.1, o)

/-- One attempted step of handler `t`: `none` when it is blocked on
the lock or already done; otherwise the next state together with the
frame event the step puts on or takes off the stream. -/
def relayStep (st : LockState) (t : Bool) : Option (LockState × Option Ev) :=
  if pcOf st t = 0 then
    if st.2.2 = none then some (setOwner (setPcOf st t 1) (some t), none)
    else none
  else if pcOf st t = 1 then some (setPcOf st t 2, some (.write t))
  else if pcOf st t = 2 then some (setPcOf st t 3, some (.read t))
  else if pcOf st t = 3 then some (setOwner (setPcOf st t 4) none, none)
  else none

/-- Run both handlers under the scheduler `sched` (each entry names
the handler that moves next; blocked attempts do nothing), collecting
the stream events. -/
def runRelay : LockState → List Bool → LockState × List Ev
  | st, [] => (st, [])
  | st, t :: sched =>
    match relayStep st t with
    | none => runRelay st sched
    | some (st2, ev) =>
      let r := runRelay st2 sched
      (r.1, ev.toList ++ r.2)

/-- The events handler `t` has emitted so far, given its counter. -/
def evtsOf (t : Bool) (p : Fin 5) : List Ev :=
  (if 2 ≤ p.val then [Ev.write t] else []) ++ (if 3 ≤ p.val then [Ev.read t] else [])

/-- The whole trace when `x` is the handler that entered the critical
section first. -/
def traceOf (x : Bool) (st : LockState) : List Ev :=
  evtsOf x (pcOf st x) ++ evtsOf (!x) (pcOf st (!x))

/-- The lock is held exactly by a handler inside the critical
section. -/
def OwnerInv (st : LockState) : Prop :=
  ∀ t : Bool, (1 ≤ (pcOf st t).val ∧ (pcOf st t).val ≤ 3) ↔ st.2.2 = some t

/-- The second handler has emitted events only once the first is
completely done. -/
def Cond (x : Bool) (st : LockState) : Prop :=
  2 ≤ (pcOf st (!x)).val → (pcOf st x).val = 4

/-- The run invariant: the trace so far is the serialized trace of
some first handler. -/
def InvP (st : LockState) (tr : List Ev) : Prop :=
  OwnerInv st ∧ ∃ x, Cond x st ∧ traceOf x st = tr

instance (st : LockState) : Decidable (OwnerInv st) := by
  unfold OwnerInv; infer_instance

instance (x : Bool) (st : LockState) : Decidable (Cond x st) := by
  unfold Cond; infer_instance

instance (st : LockState) (tr : List Ev) : Decidable (InvP st tr) := by
  unfold InvP; infer_instance

/-- Decidable check that one step preserves the invariant (stated on
the post-state reachable from `st` by `t`). -/
def presOK (st : LockState) (t x : Bool) : Bool :=
  match relayStep st t with
  | none => true
  | some (st2, ev) =>
    decide (OwnerInv st2) &&
    ((decide (Cond true st2) && (traceOf true st2 == traceOf x st ++ ev.toList)) ||
     (decide (Cond false st2) && (traceOf false st2 == traceOf x st ++ ev.toList)))

theorem presOK_true : ∀ (st : LockState) (t x : Bool),
    OwnerInv st → Cond x st → presOK st t x = true := by
  decide

theorem presOK_spec (st : LockState) (t x : Bool) (h : presOK st t x = true)
    (st2 : LockState) (ev : Option Ev) (hstep : relayStep st t = some (st2, ev)) :
    OwnerInv st2 ∧ ∃ x2, Cond x2 st2 ∧ traceOf x2 st2 = traceOf x st ++ ev.toList := by
  unfold presOK at h
  rw [hstep] at h
  simp only [Bool.and_eq_true, Bool.or_eq_true, decide_eq_true_eq, beq_iff_eq] at h
  obtain ⟨h1, h2⟩ := h
  refine ⟨h1, ?_⟩
  rcases h2 with ⟨hc, ht⟩ | ⟨hc, ht⟩
  · exact ⟨true, hc, ht⟩
  · exact ⟨false, hc, ht⟩

theorem runRelay_inv (sched : List Bool) : ∀ (st : LockState) (tr : List Ev),
    InvP st tr → InvP (runRelay st sched).1 (tr ++ (runRelay st sched).2) := by
  induction sched with
  | nil => intro st tr h; simpa [runRelay] using h
  | cons t sched ih =>
    intro st tr hinv
    cases hstep : relayStep st t with
    | none => simpa [runRelay, hstep] using ih st tr hinv
    | some pr =>
      obtain ⟨st2, ev⟩ := pr
      obtain ⟨hown, x, hcond, htr⟩ := hinv
      have hok := presOK_true st t x hown hcond
      have hpost := presOK_spec st t x hok st2 ev hstep
      have hinv2 : InvP st2 (tr ++ ev.toList) := by
        refine ⟨hpost.1, ?_⟩
        obtain ⟨x2, hc2, ht2⟩ := hpost.2
        exact ⟨x2, hc2, by rw [ht2, htr]⟩
      have hrun := ih st2 (tr ++ ev.toList) hinv2
      simpa [runRelay, hstep, List.append_assoc] using hrun

theorem relayInit_inv : InvP relayInit [] := by decide

theorem shape_no_interleave :
    ∀ (x : Bool) (a b : Fin 5), (2 ≤ b.val → a.val = 4) →
    ∀ (t u : Bool) (i j : Fin (evtsOf x a ++ evtsOf (!x) b).length),
      t ≠ u → i < j →
      (evtsOf x a ++ evtsOf (!x) b).get i = .write t →
      (evtsOf x a ++ evtsOf (!x) b).get j = .write u →
      ∃ k : Fin (evtsOf x a ++ evtsOf (!x) b).length,
        i < k ∧ k < j ∧ (evtsOf x a ++ evtsOf (!x) b).get k = .read t := by
  decide

theorem shape_no_interleave2 (tr : List Ev) (x : Bool) (a b : Fin 5)
    (hc : 2 ≤ b.val → a.val = 4) (hteq : tr = evtsOf x a ++ evtsOf (!x) b)
    (t u : Bool) (i j : Fin tr.length) (hne : t ≠ u) (hij : i < j)
    (hi : tr.get i = .write t) (hj : tr.get j = .write u) :
    ∃ k : Fin tr.length, i < k ∧ k < j ∧ tr.get k = .read t := by
  subst hteq
  exact shape_no_interleave x a b hc t u i j hne hij hi hj

/-- C9: for any interleaving of two relay calls against the same
Session, the frame events are never interleaved: whenever the trace
shows one handler's request written and later the other handler's
request written, the first handler's response read lies strictly
between them — the lock admits at most one outstanding request at a
time. -/
theorem relay_no_interleave (sched : List Bool) (t u : Bool)
    (i j : Fin (runRelay relayInit sched).2.length)
    (hne : t ≠ u) (hij : i < j)
    (hi : (runRelay relayInit sched).2.get i = .write t)
    (hj : (runRelay relayInit sched).2.get j = .write u) :
    ∃ k : Fin (runRelay relayInit sched).2.length,
      i < k ∧ k < j ∧ (runRelay relayInit sched).2.get k = .read t := by
  have hinv := runRelay_inv sched relayInit [] relayInit_inv
  simp only [List.nil_append] at hinv
  obtain ⟨hown, x, hcond, htr⟩ := hinv
  exact shape_no_interleave2 (runRelay relayInit sched).2 x
    (pcOf (runRelay relayInit sched).1 x) (pcOf (runRelay relayInit sched).1 (!x))
    hcond (by rw [← htr]; rfl) t u i j hne hij hi hj

/-- Witness for `relay_no_interleave`: a schedule that runs handler
`true` to completion and then handler `false`; the read of `true`
lies between the two writes. -/
theorem relay_no_interleave_witness :
    (true ≠ false)
    ∧ ((⟨0, by decide⟩ : Fin (runRelay relayInit
          [true, true, true, true, false, false, false, false]).2.length) <
        ⟨2, by decide⟩)
    ∧ (runRelay relayInit
        [true, true, true, true, false, false, false, false]).2.get ⟨0, by decide⟩ =
        .write true
    ∧ (runRelay relayInit
        [true, true, true, true, false, false, false, false]).2.get ⟨2, by decide⟩ =
        .write false
    ∧ ∃ k : Fin (runRelay relayInit
          [true, true, true, true, false, false, false, false]).2.length,
        (⟨0, by decide⟩ : Fin _) < k ∧ k < ⟨2, by decide⟩ ∧
        (runRelay relayInit
          [true, true, true, true, false, false, false, false]).2.get k = .read true := by
  refine ⟨by decide, by decide, by decide, by decide, ?_⟩
  exact relay_no_interleave [true, true, true, true, false, false, false, false]
    true false ⟨0, by decide⟩ ⟨2, by decide⟩ (by decide) (by decide)
    (by decide) (by decide)

end Minitunnel
